import Mathlib

/-!
Verification of the AntelopeJS todo-template data-access core.

The application source (`src/`) declares tables, models, routes and a
DataAPI controller against the `@ajs` interface declarations
(`.antelope/interfaces.d`).  The interface implementations themselves are
external to the repository, so the definitions below embed the application
code directly and model the external operations from the specification,
each such definition carrying a doc comment starting `Modelled from the
spec:`.
-/

/-- Structured serialization values: the JSON-like trees that field values,
modifier metadata and the query IR wire format are made of. -/
inductive Json where
  | null : Json
  | bool (b : Bool) : Json
  | num (n : Int) : Json
  | str (s : String) : Json
  | arr (xs : List Json) : Json
  | obj (fields : List (String × Json)) : Json

mutual

/-- Structural equality test on `Json` trees. -/
def jsonBeq : Json → Json → Bool
  | .null, .null => true
  | .bool a, .bool b => a == b
  | .num a, .num b => a == b
  | .str a, .str b => a == b
  | .arr a, .arr b => jsonBeqList a b
  | .obj a, .obj b => jsonBeqFields a b
  | _, _ => false

/-- Structural equality test on lists of `Json` trees. -/
def jsonBeqList : List Json → List Json → Bool
  | [], [] => true
  | a :: l1, b :: l2 => jsonBeq a b && jsonBeqList l1 l2
  | _, _ => false

/-- Structural equality test on `Json` object field lists. -/
def jsonBeqFields : List (String × Json) → List (String × Json) → Bool
  | [], [] => true
  | (k1, v1) :: l1, (k2, v2) :: l2 => k1 == k2 && jsonBeq v1 v2 && jsonBeqFields l1 l2
  | _, _ => false

end

mutual

theorem jsonBeq_eq : ∀ {a b : Json}, jsonBeq a b = true → a = b
  | .null, .null, _ => rfl
  | .bool _, .bool _, h => by
    simp only [jsonBeq, beq_iff_eq] at h; rw [h]
  | .num _, .num _, h => by
    simp only [jsonBeq, beq_iff_eq] at h; rw [h]
  | .str _, .str _, h => by
    simp only [jsonBeq, beq_iff_eq] at h; rw [h]
  | .arr _, .arr _, h => by
    simp only [jsonBeq] at h
    rw [jsonBeqList_eq h]
  | .obj _, .obj _, h => by
    simp only [jsonBeq] at h
    rw [jsonBeqFields_eq h]

theorem jsonBeqList_eq : ∀ {l1 l2 : List Json}, jsonBeqList l1 l2 = true → l1 = l2
  | [], [], _ => rfl
  | a :: l1, b :: l2, h => by
    simp only [jsonBeqList, Bool.and_eq_true] at h
    rw [jsonBeq_eq h.1, jsonBeqList_eq h.2]

theorem jsonBeqFields_eq :
    ∀ {l1 l2 : List (String × Json)}, jsonBeqFields l1 l2 = true → l1 = l2
  | [], [], _ => rfl
  | (k1, v1) :: l1, (k2, v2) :: l2, h => by
    simp only [jsonBeqFields, Bool.and_eq_true, beq_iff_eq] at h
    rw [h.1.1, jsonBeq_eq h.1.2, jsonBeqFields_eq h.2]

end

mutual

theorem jsonBeq_refl : ∀ (a : Json), jsonBeq a a = true
  | .null => rfl
  | .bool _ => by simp [jsonBeq]
  | .num _ => by simp [jsonBeq]
  | .str _ => by simp [jsonBeq]
  | .arr l => by simp only [jsonBeq]; exact jsonBeqList_refl l
  | .obj l => by simp only [jsonBeq]; exact jsonBeqFields_refl l

theorem jsonBeqList_refl : ∀ (l : List Json), jsonBeqList l l = true
  | [] => rfl
  | a :: l => by
    simp only [jsonBeqList, Bool.and_eq_true]
    exact ⟨jsonBeq_refl a, jsonBeqList_refl l⟩

theorem jsonBeqFields_refl : ∀ (l : List (String × Json)), jsonBeqFields l l = true
  | [] => rfl
  | (k, v) :: l => by
    simp only [jsonBeqFields, Bool.and_eq_true, beq_self_eq_true]
    exact ⟨⟨trivial, jsonBeq_refl v⟩, jsonBeqFields_refl l⟩

end

instance : BEq Json := ⟨jsonBeq⟩

theorem jsonBeq_eq_true_iff {a b : Json} : (a == b) = true ↔ a = b := by
  constructor
  · exact fun h => jsonBeq_eq h
  · rintro rfl; exact jsonBeq_refl a

/-! ## Field Modifier Pipeline (database-decorators) -/

/-- Modelled from the spec: the one-way hash digest used by `HashModifier.lock`
(`modifiers/common.d.ts`, `common.d.ts`; implementation external).  The spec
requires a deterministic digest whose `test` comparison is exact
(`test(lock(v), v2) == false` whenever `v != v2`) and whose stored value
differs from the plaintext (Scenario B), so the digest is modelled as an
injective encoding that never returns its input. -/
def hashString (s : String) : String := ⟨'#' :: s.data⟩

theorem hashString_injective {a b : String} (h : hashString a = hashString b) : a = b := by
  have hd : '#' :: a.data = '#' :: b.data := congrArg String.data h
  have hdd : a.data = b.data := by injection hd
  exact congrArg String.mk hdd

theorem hashString_ne (s : String) : hashString s ≠ s := by
  intro h
  have hlen := congrArg (fun t => t.data.length) h
  simp [hashString] at hlen

/-- Modelled from the spec: `HashModifier.lock(locked_value, value)` — hashing
the new plain value, ignoring the previous locked value. -/
def hashLock (_locked : Option String) (value : String) : String := hashString value

/-- Modelled from the spec: `OneWayModifier.test(locked_value, value)` for the
hash modifier — hashes the candidate and compares with the stored digest. -/
def hashTest (locked : String) (value : String) : Bool := locked == hashString value

/-- Error taxonomy of the modifier pipeline (spec §7). -/
inductive PipelineError where
  | operationNotSupported : PipelineError
deriving DecidableEq

/-- Modelled from the spec: a modifier attachment as seen by the pipeline
dispatch — a `lock` transform plus optional `unlock`/`unlockrequest`
inverses; one-way modifiers (hash) carry no inverse. -/
structure ModifierImpl where
  lockFn : Json → Json
  unlockFn : Option (Json → Json)
  unlockrequestFn : Option (Json → Json)

/-- A modifier is one-way when it supports no unlock operation. -/
def ModifierImpl.isOneWay (m : ModifierImpl) : Prop :=
  m.unlockFn = none ∧ m.unlockrequestFn = none

/-- Json-valued wrapper of the hash lock (hashes string payloads). -/
def hashLockJson : Json → Json
  | .str s => .str (hashString s)
  | v => v

/-- The hash modifier attachment: lock only, no unlock. -/
def hashModifierImpl : ModifierImpl := ⟨hashLockJson, none, none⟩

/-- Modelled from the spec: the pipeline `unlock` dispatch — fails with
`OperationNotSupported` when the modifier carries no unlock transform. -/
def runUnlock (m : ModifierImpl) (locked : Json) : Except PipelineError Json :=
  match m.unlockFn with
  | some f => .ok (f locked)
  | none => .error .operationNotSupported

/-- Modelled from the spec: the in-query `unlockrequest` dispatch — fails with
`OperationNotSupported` when the modifier carries no in-query inverse. -/
def runUnlockRequest (m : ModifierImpl) (data : Json) : Except PipelineError Json :=
  match m.unlockrequestFn with
  | some f => .ok (f data)
  | none => .error .operationNotSupported

/-- Modelled from the spec: a two-way modifier (`TwoWayModifier` in
`modifiers/common.d.ts`; implementation external) — a lock transform on write
with an unlock inverse on read. -/
structure TwoWayMod where
  lockFn : Json → Json
  unlockFn : Json → Json

/-- A two-way modifier round-trips when unlock inverts lock on every value. -/
def TwoWayMod.RoundTrip (m : TwoWayMod) : Prop :=
  ∀ v : Json, m.unlockFn (m.lockFn v) = v

/-- Modelled from the spec: applying a modifier stack on write, in declaration
order (outer to inner). -/
def lockStack : List TwoWayMod → Json → Json
  | [], v => v
  | m :: ms, v => lockStack ms (m.lockFn v)

/-- Modelled from the spec: applying a modifier stack on read, in reverse
declaration order (inner to outer). -/
def unlockStack : List TwoWayMod → Json → Json
  | [], v => v
  | m :: ms, v => m.unlockFn (unlockStack ms v)

/-- Modelled from the spec: the encryption modifier (`EncryptionModifier`,
two-way; implementation external) — an invertible encoding of the plain value
together with its out-of-band metadata (IV), modelled as a reversible
wrapping keyed by the secret. -/
def encLock (secretKey : String) (v : Json) : Json := .arr [.str secretKey, v]

/-- Modelled from the spec: the encryption modifier unlock — unwraps the value
encoded by `encLock`. -/
def encUnlock : Json → Json
  | .arr [_, v] => v
  | j => j

/-- The encryption modifier as a two-way modifier. -/
def encModifier (secretKey : String) : TwoWayMod := ⟨encLock secretKey, encUnlock⟩

theorem encModifier_roundTrip (secretKey : String) : (encModifier secretKey).RoundTrip := by
  intro v
  rfl

/-- Modelled from the spec: `ContainerModifier.lock(locked_value, value, key)`
(localization) — stores the new value in the keyed map of sub-values under
the selector key, replacing any previous entry for that key. -/
def containerLock (locked : List (String × Json)) (value : Json) (key : String) :
    List (String × Json) :=
  (key, value) :: locked.filter (fun p => !(p.1 == key))

/-- Modelled from the spec: `ContainerModifier.unlock(locked_value, key)` —
selects the sub-value stored under the selector key. -/
def containerUnlock (locked : List (String × Json)) (key : String) : Option Json :=
  locked.lookup key

/-! ## Data Model Layer conversion boundaries (C1) -/

/-- A model instance: field values plus the out-of-band per-field modifier
metadata. -/
structure ModelInstance where
  fields : List (String × Json)
  meta : List (String × Json)

/-- A stored database row: the data part and the out-of-band modifier
metadata part. -/
structure StoredRow where
  data : List (String × Json)
  meta : List (String × Json)

/-- Lock every modifier-bearing field of a plain object with its attached
lock transform. -/
def lockFields (mods : List (String × (Json → Json))) (obj : List (String × Json)) :
    List (String × Json) :=
  obj.map fun kv =>
    match mods.lookup kv.1 with
    | some f => (kv.1, f kv.2)
    | none => kv

/-- Modelled from the spec: `fromPlainData(obj)` (`model.d.ts`; implementation
external) — applies `lock()` to every modifier-bearing field, e.g. hashing a
supplied plaintext password before storage. -/
def fromPlainData (mods : List (String × (Json → Json))) (obj : List (String × Json)) :
    ModelInstance :=
  ⟨lockFields mods obj, []⟩

/-- Modelled from the spec: `toDatabase(obj)` — a model instance is stored as
its field values plus its out-of-band metadata. -/
def toDatabase (inst : ModelInstance) : StoredRow := ⟨inst.fields, inst.meta⟩

/-- Modelled from the spec: `fromDatabase(obj)` (`model.d.ts`; implementation
external) — reconstructs a model instance from the stored representation
WITHOUT unlocking: fields carry the stored locked values unchanged. -/
def fromDatabase (stored : StoredRow) : ModelInstance := ⟨stored.data, stored.meta⟩

/-- The modifier attachments of the `User` table (`user.table.ts`): the
`password` field carries the hash modifier. -/
def userModifiers : List (String × (Json → Json)) := [("password", hashLockJson)]

/-! ## Association list helpers -/

theorem lookup_map_keyed {α β : Type} (f : String → α → β) :
    ∀ (l : List (String × α)) (k : String),
      List.lookup k (l.map fun p => (p.1, f p.1 p.2)) = (List.lookup k l).map (f k)
  | [], _ => rfl
  | (k1, v1) :: l, k => by
    by_cases h : k = k1
    · subst h
      simp [List.lookup]
    · have hb : (k == k1) = false := beq_false_of_ne h
      simp [List.lookup, hb, lookup_map_keyed f l k]

theorem mem_of_lookup_eq_some {α : Type} :
    ∀ {l : List (String × α)} {k : String} {v : α}, List.lookup k l = some v → (k, v) ∈ l
  | (k1, v1) :: l, k, v, h => by
    by_cases hk : k = k1
    · subst hk
      simp [List.lookup] at h
      subst h
      exact List.mem_cons_self _ _
    · have hb : (k == k1) = false := beq_false_of_ne hk
      simp [List.lookup, hb] at h
      exact List.mem_cons_of_mem _ (mem_of_lookup_eq_some h)

theorem lookup_append_left {α : Type} :
    ∀ {l1 : List (String × α)} {k : String} {v : α} (l2 : List (String × α)),
      List.lookup k l1 = some v → List.lookup k (l1 ++ l2) = some v
  | (k1, v1) :: l1, k, v, l2, h => by
    by_cases hk : k = k1
    · subst hk
      simp_all [List.lookup]
    · have hb : (k == k1) = false := beq_false_of_ne hk
      simp only [List.lookup, hb, List.cons_append] at h ⊢
      exact lookup_append_left l2 h

theorem lookup_append_right {α : Type} :
    ∀ {l1 : List (String × α)} {k : String} (l2 : List (String × α)),
      List.lookup k l1 = none → List.lookup k (l1 ++ l2) = List.lookup k l2
  | [], k, l2, _ => rfl
  | (k1, v1) :: l1, k, l2, h => by
    by_cases hk : k = k1
    · subst hk
      simp [List.lookup] at h
    · have hb : (k == k1) = false := beq_false_of_ne hk
      simp only [List.lookup, hb, List.cons_append] at h ⊢
      exact lookup_append_right l2 h

theorem lookup_none_of_map_keyed {α β : Type} (f : String → α → β)
    {l : List (String × α)} {k : String} (h : List.lookup k l = none) :
    List.lookup k (l.map fun p => (p.1, f p.1 p.2)) = none := by
  rw [lookup_map_keyed, h]
  rfl

/-! ## DataAPI Metadata Engine (C5) -/

/-- Per-field DataAPI metadata (`FieldData` in `data-api/beta/metadata.d.ts`):
access mode, listable spec (keyed lists of required companion DB fields),
mandatory verb set, sortable spec, foreign reference, validator. -/
structure FieldMeta where
  mode : Option Nat := none
  listable : List (String × List String) := []
  mandatory : List String := []
  sortable : Option Bool := none
  foreign : Option (String × Option String × Bool) := none
  hasValidator : Bool := false

/-- Union of two string collections, keeping declaration order and removing
duplicates coming from the child. -/
def unionNames (parent child : List String) : List String :=
  parent ++ child.filter (fun c => !(parent.contains c))

/-- Keyed deep-merge of two per-key dictionaries: child entries override by
key, parent-only entries are kept. -/
def unionKeyed (parent child : List (String × List String)) : List (String × List String) :=
  child ++ parent.filter (fun p => (List.lookup p.1 child).isNone)

/-- Modelled from the spec: the per-field merge performed by
`DataAPIMeta.inherit` (`metadata.d.ts`; implementation external) — per-field
dictionaries deep-merge, sets union, scalar child declarations override,
ancestor-only declarations are kept. -/
def mergeFieldMeta (parent child : FieldMeta) : FieldMeta where
  mode := child.mode <|> parent.mode
  listable := unionKeyed parent.listable child.listable
  mandatory := unionNames parent.mandatory child.mandatory
  sortable := child.sortable <|> parent.sortable
  foreign := child.foreign <|> parent.foreign
  hasValidator := child.hasValidator || parent.hasValidator

/-- Merge one child field declaration with the matching parent declaration,
if any. -/
def inheritField (parent : List (String × FieldMeta)) (k : String) (cf : FieldMeta) :
    FieldMeta :=
  match List.lookup k parent with
  | some pf => mergeFieldMeta pf cf
  | none => cf

/-- Modelled from the spec: `DataAPIMeta.inherit(parent)` on the field map —
fields present in both are deep-merged, ancestor-only and child-only fields
are kept. -/
def inheritFields (parent child : List (String × FieldMeta)) : List (String × FieldMeta) :=
  (child.map fun p => (p.1, inheritField parent p.1 p.2))
    ++ parent.filter (fun p => (List.lookup p.1 child).isNone)

theorem lookup_filter_key {α : Type} (q : String → Bool) :
    ∀ (l : List (String × α)) (k : String), q k = true →
      List.lookup k (l.filter fun p => q p.1) = List.lookup k l
  | [], _, _ => rfl
  | (k1, v1) :: l, k, hq => by
    by_cases hk : k = k1
    · subst hk
      simp [List.filter, hq, List.lookup]
    · have hb : (k == k1) = false := beq_false_of_ne hk
      cases hq1 : q k1 with
      | true =>
        simp only [List.filter, hq1]
        simp only [List.lookup, hb]
        exact lookup_filter_key q l k hq
      | false =>
        simp only [List.filter, hq1]
        simp only [List.lookup, hb]
        exact lookup_filter_key q l k hq

theorem inheritFields_lookup_parent_only {parent child : List (String × FieldMeta)}
    {k : String} {pf : FieldMeta} (hp : List.lookup k parent = some pf)
    (hc : List.lookup k child = none) :
    List.lookup k (inheritFields parent child) = some pf := by
  unfold inheritFields
  have hmap := lookup_none_of_map_keyed (inheritField parent) hc
  rw [lookup_append_right _ hmap]
  rw [lookup_filter_key (fun k1 => (List.lookup k1 child).isNone) parent k
    (by show (List.lookup k child).isNone = true; rw [hc]; rfl)]
  exact hp

theorem inheritFields_lookup_both {parent child : List (String × FieldMeta)}
    {k : String} {pf cf : FieldMeta} (hp : List.lookup k parent = some pf)
    (hc : List.lookup k child = some cf) :
    List.lookup k (inheritFields parent child) = some (mergeFieldMeta pf cf) := by
  unfold inheritFields
  apply lookup_append_left
  rw [lookup_map_keyed (inheritField parent) child k, hc]
  simp [inheritField, hp]

/-! ## DataAPI CRUD synthesis: List and Edit (C6, C7, C8) -/

/-- A database row as the List/Edit operations see it. -/
def Row : Type := List (String × Json)

/-- Comparison operator of a filter value (`Comparison` in `metadata.d.ts`). -/
inductive CmpOp where
  | eq : CmpOp
  | ne : CmpOp
  | gt : CmpOp
  | ge : CmpOp
  | lt : CmpOp
  | le : CmpOp
deriving DecidableEq

/-- A filter value: comparison value and comparison operator (`FilterValue`). -/
def FilterVal : Type := Json × CmpOp

/-- Strict ordering on `Json` scalars, used by ordering comparisons. -/
def jsonLt : Json → Json → Bool
  | .num a, .num b => decide (a < b)
  | .str a, .str b => decide (a < b)
  | .bool a, .bool b => !a && b
  | _, _ => false

/-- Modelled from the spec: the registered per-field filter predicates —
compare the row value with the filter value under the comparison operator. -/
def applyCmp : CmpOp → Json → Json → Bool
  | .eq, a, b => a == b
  | .ne, a, b => !(a == b)
  | .gt, a, b => jsonLt b a
  | .ge, a, b => jsonLt b a || a == b
  | .lt, a, b => jsonLt a b
  | .le, a, b => jsonLt a b || a == b

/-- One filter applied to a row: look the field up and compare. -/
def rowMatchesFilter (row : Row) (k : String) (fv : FilterVal) : Bool :=
  match List.lookup k row with
  | some rv => applyCmp fv.2 rv fv.1
  | none => false

/-- A row satisfies a filter map when it satisfies every entry. -/
def rowMatches (filters : List (String × FilterVal)) (row : Row) : Bool :=
  filters.all fun f => rowMatchesFilter row f.1 f.2

/-- Non-strict `Json` ordering used by sorting. -/
def jsonLe (a b : Json) : Bool := jsonLt a b || jsonBeq a b

/-- Row ordering on a sort key, ascending or descending. -/
def rowLe (key : String) (ascending : Bool) (a b : Row) : Bool :=
  let av := (List.lookup key a).getD .null
  let bv := (List.lookup key b).getD .null
  if ascending then jsonLe av bv else jsonLe bv av

/-- Insertion into a sorted row list. -/
def insertSorted (cmpLe : Row → Row → Bool) (r : Row) : List Row → List Row
  | [] => [r]
  | x :: xs => if cmpLe r x then r :: x :: xs else x :: insertSorted cmpLe r xs

/-- Insertion sort of rows. -/
def sortRowsBy (cmpLe : Row → Row → Bool) : List Row → List Row
  | [] => []
  | x :: xs => insertSorted cmpLe x (sortRowsBy cmpLe xs)

/-- Modelled from the spec: the sorting stage of List — sorts on the sort key
in the requested direction when one is supplied. -/
def sortRows (sortKey : Option (String × Bool)) (rows : List Row) : List Row :=
  match sortKey with
  | some (k, ascending) => sortRowsBy (rowLe k ascending) rows
  | none => rows

theorem mem_insertSorted {cmpLe : Row → Row → Bool} {r x : Row} :
    ∀ {l : List Row}, x ∈ insertSorted cmpLe r l → x = r ∨ x ∈ l
  | [], h => by simpa [insertSorted] using h
  | y :: ys, h => by
    by_cases hc : cmpLe r y
    · simp only [insertSorted, if_pos hc, List.mem_cons] at h
      rcases h with h | h | h
      · exact Or.inl h
      · exact Or.inr (by simp [h])
      · exact Or.inr (List.mem_cons_of_mem _ h)
    · simp only [insertSorted, if_neg hc, List.mem_cons] at h
      rcases h with h | h
      · exact Or.inr (by simp [h])
      · rcases mem_insertSorted h with h | h
        · exact Or.inl h
        · exact Or.inr (List.mem_cons_of_mem _ h)

theorem mem_sortRowsBy {cmpLe : Row → Row → Bool} {x : Row} :
    ∀ {l : List Row}, x ∈ sortRowsBy cmpLe l → x ∈ l
  | [], h => by simp [sortRowsBy] at h
  | y :: ys, h => by
    simp only [sortRowsBy] at h
    rcases mem_insertSorted h with h | h
    · simp [h]
    · exact List.mem_cons_of_mem _ (mem_sortRowsBy h)

theorem mem_sortRows {sortKey : Option (String × Bool)} {x : Row} {l : List Row}
    (h : x ∈ sortRows sortKey l) : x ∈ l := by
  cases sortKey with
  | none => exact h
  | some p =>
    cases p with
    | mk k ascending => exact mem_sortRowsBy h

/-- Error taxonomy of the DataAPI layer (spec §7). -/
inductive ApiError where
  | validationError : ApiError
  | notFound : ApiError
deriving DecidableEq

/-- Result shape of the List endpoint
(`DefaultRoutes.List` in `data-api/beta/index.d.ts`). -/
structure ListResult where
  results : List Row
  total : Nat
  offset : Nat
  limit : Nat

/-- Parameters of the List endpoint
(`Parameters.ListParameters` in `components.d.ts`). -/
structure ListParams where
  filters : List (String × FilterVal)
  offset : Nat
  limit : Nat
  sortKey : Option (String × Bool)
  maxPage : Nat

/-- Modelled from the spec: the synthesized List operation
(`DefaultRoutes.List`, `Query.List`; implementation external) — rejects any
filter key absent from the registered filter names with a `ValidationError`,
filters the rows, sorts, paginates with `offset`/`limit` under the
server-side `maxPage` cap, and reports `total` as the match count before
pagination. -/
def listOp (registered : List String) (p : ListParams) (rows : List Row) :
    Except ApiError ListResult :=
  if p.filters.all (fun f => registered.contains f.1) then
    let matched := rows.filter (rowMatches p.filters)
    .ok ⟨((sortRows p.sortKey matched).drop p.offset).take (min p.limit p.maxPage),
      matched.length, p.offset, p.limit⟩
  else .error .validationError

/-- Per-field metadata as the Edit operation uses it: mandatory verb set,
writability (from the access mode), optional validator. -/
structure ApiField where
  mandatory : List String := []
  writable : Bool := true
  validator : Option (Json → Bool) := none

/-- Modelled from the spec: `Validation.MandatoryFields` — true when some
field marked mandatory for the verb is missing from the body. -/
def missingMandatory (meta : List (String × ApiField)) (verb : String)
    (body : List (String × Json)) : Bool :=
  meta.any fun f => f.2.mandatory.contains verb && (List.lookup f.1 body).isNone

/-- Modelled from the spec: `Validation.ValidateTypes` — true when some body
field fails its declared validator. -/
def failsValidation (meta : List (String × ApiField)) (body : List (String × Json)) : Bool :=
  body.any fun kv =>
    match List.lookup kv.1 meta with
    | some f =>
      match f.validator with
      | some p => !(p kv.2)
      | none => false
    | none => false

/-- Merge of one field value: the body value replaces the existing value only
when the field is declared writable and present in the body. -/
def mergeFieldVal (meta : List (String × ApiField)) (body : List (String × Json))
    (k : String) (v : Json) : Json :=
  match List.lookup k meta, List.lookup k body with
  | some f, some w => if f.writable then w else v
  | _, _ => v

/-- Modelled from the spec: the partial merge of Edit — body values replace
existing values on writable fields only. -/
def mergeWritable (meta : List (String × ApiField)) (existing body : List (String × Json)) :
    List (String × Json) :=
  existing.map fun kv => (kv.1, mergeFieldVal meta body kv.1 kv.2)

/-- Modelled from the spec: the synthesized Edit operation
(`DefaultRoutes.Edit`; implementation external) — mandatory checks for
`edit` unless bypassed by `noMandatory`, validator checks, then partial
merge of writable fields only. -/
def editOp (meta : List (String × ApiField)) (existing body : List (String × Json))
    (noMandatory : Bool) : Except ApiError (List (String × Json)) :=
  if !noMandatory && missingMandatory meta "edit" body then .error .validationError
  else if failsValidation meta body then .error .validationError
  else .ok (mergeWritable meta existing body)

/-- The DataAPI field metadata declared by `TaskDataAPI` (`tasks.ts`):
`title` is `Mandatory('new', 'edit')` and read-write; `_id`, `userId`,
`createdAt`, `updatedAt` are read-only; `description` is read-write. -/
def taskFields : List (String × ApiField) :=
  [("_id", { writable := false }),
   ("title", { mandatory := ["new", "edit"] }),
   ("description", {}),
   ("userId", { writable := false }),
   ("createdAt", { writable := false }),
   ("updatedAt", { writable := false })]

/-! ## UserModel.getUserByEmail (C10) -/

/-- `UserModel.getUserByEmail` (`user.model.ts`): returns the first element of
the `getBy('email', email)` result array when it is non-empty, `undefined`
otherwise.  The database access is external; the selection logic is embedded
over the result array. -/
def UserModel.getUserByEmail (users : List ModelInstance) : Option ModelInstance :=
  if h : 0 < users.length then some (users.get ⟨0, h⟩) else none

/-! ## Query IR and its serialization (C9) -/

mutual

/-- The query IR argument type (`QueryArg` in `@ajs/database/beta`): tagged
variants `value`, `query` (nested context + query-type tag), `func` (captured
body + closed-over variable indices), `array`, `object`, `var`. -/
inductive QueryArg where
  | value (v : Json) : QueryArg
  | query (ctx : List QueryStep) (queryType : String) : QueryArg
  | func (body : QueryArg) (args : List Nat) : QueryArg
  | array (xs : List QueryArg) : QueryArg
  | object (fields : List (String × QueryArg)) : QueryArg
  | var (name : String) : QueryArg

/-- One step of a `QueryBuilderContext`: operation id, argument list,
optional options map. -/
inductive QueryStep where
  | mk (id : String) (args : List QueryArg) (opts : Option Json) : QueryStep

end

/-- Encode a list of closed-over variable indices as `Json` numbers. -/
def natsToJson (l : List Nat) : List Json := l.map fun n => .num (.ofNat n)

/-- Decode a list of `Json` numbers back to variable indices. -/
def jsonToNats : List Json → Option (List Nat)
  | [] => some []
  | .num (.ofNat n) :: l =>
    match jsonToNats l with
    | some ns => some (n :: ns)
    | none => none
  | _ => none

theorem jsonToNats_natsToJson : ∀ l : List Nat, jsonToNats (natsToJson l) = some l
  | [] => rfl
  | n :: l => by
    simp only [natsToJson, List.map, jsonToNats]
    rw [show (List.map (fun n => Json.num (.ofNat n)) l) = natsToJson l from rfl]
    rw [jsonToNats_natsToJson l]

mutual

/-- Modelled from the spec: serialization of a `QueryArg` into the structured
wire format `{type: ..., value, ...}` (§6; implementation external). -/
def serializeArg : QueryArg → Json
  | .value v => .obj [("type", .str "value"), ("value", v)]
  | .query ctx queryType =>
    .obj [("type", .str "query"), ("value", .arr (serializeSteps ctx)),
      ("queryType", .str queryType)]
  | .func body args =>
    .obj [("type", .str "func"), ("value", serializeArg body),
      ("args", .arr (natsToJson args))]
  | .array xs => .obj [("type", .str "array"), ("value", .arr (serializeArgs xs))]
  | .object fields => .obj [("type", .str "object"), ("value", .obj (serializeFields fields))]
  | .var name => .obj [("type", .str "var"), ("value", .str name)]

/-- Serialization of a `QueryArg` list. -/
def serializeArgs : List QueryArg → List Json
  | [] => []
  | a :: l => serializeArg a :: serializeArgs l

/-- Serialization of an `object` variant field list. -/
def serializeFields : List (String × QueryArg) → List (String × Json)
  | [] => []
  | (k, v) :: l => (k, serializeArg v) :: serializeFields l

/-- Modelled from the spec: serialization of one context step
`{id, args, opts?}`. -/
def serializeStep : QueryStep → Json
  | .mk id args (some opts) =>
    .obj [("id", .str id), ("args", .arr (serializeArgs args)), ("opts", opts)]
  | .mk id args none => .obj [("id", .str id), ("args", .arr (serializeArgs args))]

/-- Serialization of a step list. -/
def serializeSteps : List QueryStep → List Json
  | [] => []
  | s :: l => serializeStep s :: serializeSteps l

end

/-- Modelled from the spec: serialization of a whole `QueryBuilderContext`
(the ordered step list). -/
def serializeCtx (ctx : List QueryStep) : Json := .arr (serializeSteps ctx)

mutual

/-- Modelled from the spec: deserialization of a `QueryArg` from the wire
format; rejects malformed trees. -/
def deserializeArg : Json → Option QueryArg
  | .obj [("type", .str "value"), ("value", v)] => some (.value v)
  | .obj [("type", .str "query"), ("value", .arr steps), ("queryType", .str queryType)] =>
    match deserializeSteps steps with
    | some ctx => some (.query ctx queryType)
    | none => none
  | .obj [("type", .str "func"), ("value", body), ("args", .arr idx)] =>
    match deserializeArg body, jsonToNats idx with
    | some b, some ns => some (.func b ns)
    | _, _ => none
  | .obj [("type", .str "array"), ("value", .arr xs)] =>
    match deserializeArgs xs with
    | some l => some (.array l)
    | none => none
  | .obj [("type", .str "object"), ("value", .obj fields)] =>
    match deserializeFields fields with
    | some l => some (.object l)
    | none => none
  | .obj [("type", .str "var"), ("value", .str name)] => some (.var name)
  | _ => none

/-- Deserialization of a `QueryArg` list. -/
def deserializeArgs : List Json → Option (List QueryArg)
  | [] => some []
  | x :: l =>
    match deserializeArg x, deserializeArgs l with
    | some a, some l2 => some (a :: l2)
    | _, _ => none

/-- Deserialization of an `object` variant field list. -/
def deserializeFields : List (String × Json) → Option (List (String × QueryArg))
  | [] => some []
  | (k, v) :: l =>
    match deserializeArg v, deserializeFields l with
    | some a, some l2 => some ((k, a) :: l2)
    | _, _ => none

/-- Deserialization of one context step. -/
def deserializeStep : Json → Option QueryStep
  | .obj [("id", .str id), ("args", .arr args)] =>
    match deserializeArgs args with
    | some l => some (.mk id l none)
    | none => none
  | .obj [("id", .str id), ("args", .arr args), ("opts", opts)] =>
    match deserializeArgs args with
    | some l => some (.mk id l (some opts))
    | none => none
  | _ => none

/-- Deserialization of a step list. -/
def deserializeSteps : List Json → Option (List QueryStep)
  | [] => some []
  | x :: l =>
    match deserializeStep x, deserializeSteps l with
    | some s, some l2 => some (s :: l2)
    | _, _ => none

end

/-- Modelled from the spec: deserialization of a whole
`QueryBuilderContext`. -/
def deserializeCtx : Json → Option (List QueryStep)
  | .arr steps => deserializeSteps steps
  | _ => none

set_option maxHeartbeats 3200000 in
mutual

theorem deserializeArg_serializeArg :
    ∀ a : QueryArg, deserializeArg (serializeArg a) = some a
  | .value v => by
    simp [serializeArg, deserializeArg]
  | .query ctx queryType => by
    simp [serializeArg, deserializeArg, deserializeSteps_serializeSteps ctx]
  | .func body args => by
    simp [serializeArg, deserializeArg, deserializeArg_serializeArg body,
      jsonToNats_natsToJson args]
  | .array xs => by
    simp [serializeArg, deserializeArg, deserializeArgs_serializeArgs xs]
  | .object fields => by
    simp [serializeArg, deserializeArg, deserializeFields_serializeFields fields]
  | .var name => by
    simp [serializeArg, deserializeArg]

theorem deserializeArgs_serializeArgs :
    ∀ l : List QueryArg, deserializeArgs (serializeArgs l) = some l
  | [] => rfl
  | a :: l => by
    simp [serializeArgs, deserializeArgs, deserializeArg_serializeArg a,
      deserializeArgs_serializeArgs l]

theorem deserializeFields_serializeFields :
    ∀ l : List (String × QueryArg), deserializeFields (serializeFields l) = some l
  | [] => rfl
  | (k, v) :: l => by
    simp [serializeFields, deserializeFields, deserializeArg_serializeArg v,
      deserializeFields_serializeFields l]

theorem deserializeStep_serializeStep :
    ∀ s : QueryStep, deserializeStep (serializeStep s) = some s
  | .mk id args (some opts) => by
    simp [serializeStep, deserializeStep, deserializeArgs_serializeArgs args]
  | .mk id args none => by
    simp [serializeStep, deserializeStep, deserializeArgs_serializeArgs args]

theorem deserializeSteps_serializeSteps :
    ∀ l : List QueryStep, deserializeSteps (serializeSteps l) = some l
  | [] => rfl
  | s :: l => by
    simp [serializeSteps, deserializeSteps, deserializeStep_serializeStep s,
      deserializeSteps_serializeSteps l]

end

/-! ## Claim theorems -/

/-- C1: `fromDatabase` performs no unlock — a model instance built from a
stored row carries the stored locked field values unchanged; in particular a
user inserted with plaintext password `v` (locked by `fromPlainData`) is
fetched with its password field equal to the stored hash digest and not
`v`. -/
theorem fromDatabase_keeps_locked :
    (∀ stored : StoredRow, (fromDatabase stored).fields = stored.data) ∧
    (∀ id email v : String,
      List.lookup "password"
          (fromDatabase (toDatabase (fromPlainData userModifiers
            [("_id", .str id), ("email", .str email), ("password", .str v)]))).fields
        = some (.str (hashString v)) ∧
      List.lookup "password"
          (fromDatabase (toDatabase (fromPlainData userModifiers
            [("_id", .str id), ("email", .str email), ("password", .str v)]))).fields
        ≠ some (.str v)) := by
  constructor
  · intro stored
    rfl
  · intro id email v
    have hl : List.lookup "password"
        (fromDatabase (toDatabase (fromPlainData userModifiers
          [("_id", .str id), ("email", .str email), ("password", .str v)]))).fields
        = some (.str (hashString v)) := by
      simp [fromDatabase, toDatabase, fromPlainData, lockFields, userModifiers,
        hashLockJson, List.lookup]
    refine ⟨hl, ?_⟩
    rw [hl]
    intro h
    have h2 : Json.str (hashString v) = Json.str v := by injection h
    have h3 : hashString v = v := by injection h2
    exact hashString_ne v h3

/-- C2: the one-way hash modifier of the User table's password field —
testing a locked value against the original plain value succeeds, and
testing it against any different value fails. -/
theorem hash_lock_test (prev : Option String) (v v2 : String) (h : v ≠ v2) :
    hashTest (hashLock prev v) v = true ∧ hashTest (hashLock prev v) v2 = false := by
  constructor
  · simp [hashTest, hashLock]
  · simp only [hashTest, hashLock]
    rw [beq_eq_false_iff_ne]
    intro he
    exact h (hashString_injective he)

/-- Witness for C2 at the spec's Scenario B values. -/
theorem hash_lock_test_witness :
    hashTest (hashLock none "secret123") "secret123" = true ∧
    hashTest (hashLock none "secret123") "wrong" = false :=
  hash_lock_test none "secret123" "wrong" (by decide)

/-- C3: a stack of two-way modifiers applied in declaration order on write
and reverse order on read restores every accepted value, and the container
modifier restores the stored sub-value per selector key. -/
theorem twoWay_stack_roundtrip :
    (∀ stack : List TwoWayMod, (∀ m ∈ stack, m.RoundTrip) →
      ∀ v : Json, unlockStack stack (lockStack stack v) = v) ∧
    (∀ (locked : List (String × Json)) (key : String) (v : Json),
      containerUnlock (containerLock locked v key) key = some v) := by
  constructor
  · intro stack
    induction stack with
    | nil =>
      intro _ v
      rfl
    | cons m ms ih =>
      intro hrt v
      simp only [lockStack, unlockStack]
      rw [ih (fun m2 hm2 => hrt m2 (List.mem_cons_of_mem _ hm2)) (m.lockFn v)]
      exact hrt m (List.mem_cons_self _ _) v
  · intro locked key v
    simp [containerUnlock, containerLock, List.lookup]

/-- Witness for C3 on a two-modifier encryption stack and on the container
modifier at a concrete selector key. -/
theorem twoWay_stack_roundtrip_witness :
    unlockStack [encModifier "k1", encModifier "k2"]
        (lockStack [encModifier "k1", encModifier "k2"] (.str "plain")) = .str "plain" ∧
    containerUnlock (containerLock [("en", .str "old")] (.str "bonjour") "fr") "fr"
        = some (.str "bonjour") := by
  constructor
  · refine twoWay_stack_roundtrip.1 [encModifier "k1", encModifier "k2"] ?_ (.str "plain")
    intro m hm
    rcases List.mem_cons.mp hm with rfl | hm2
    · exact encModifier_roundTrip "k1"
    · rcases List.mem_cons.mp hm2 with rfl | hm3
      · exact encModifier_roundTrip "k2"
      · cases hm3
  · exact twoWay_stack_roundtrip.2 [("en", .str "old")] "fr" (.str "bonjour")

/-- C4: on a one-way modifier both `unlock` and `unlockrequest` always fail
with `OperationNotSupported`; no plain value is ever returned. -/
theorem oneWay_unlock_fails (m : ModifierImpl) (h : m.isOneWay) (locked data : Json) :
    runUnlock m locked = .error .operationNotSupported ∧
    runUnlockRequest m data = .error .operationNotSupported := by
  obtain ⟨h1, h2⟩ := h
  constructor
  · simp [runUnlock, h1]
  · simp [runUnlockRequest, h2]

/-- Witness for C4 on the hash modifier. -/
theorem oneWay_unlock_fails_witness :
    runUnlock hashModifierImpl (.str "digest") = .error .operationNotSupported ∧
    runUnlockRequest hashModifierImpl (.str "digest") = .error .operationNotSupported :=
  oneWay_unlock_fails hashModifierImpl ⟨rfl, rfl⟩ (.str "digest") (.str "digest")

theorem mem_unionNames {s : String} {p c : List String} :
    s ∈ unionNames p c ↔ s ∈ p ∨ s ∈ c := by
  unfold unionNames
  by_cases hp : s ∈ p
  · simp [List.mem_append, hp]
  · simp only [List.mem_append, List.mem_filter, Bool.not_eq_true']
    constructor
    · rintro (h | ⟨h, _⟩)
      · exact Or.inl h
      · exact Or.inr h
    · rintro (h | h)
      · exact absurd h hp
      · refine Or.inr ⟨h, ?_⟩
        rw [← Bool.not_eq_true, List.elem_iff]
        exact hp

/-- C5: `DataAPIMeta.inherit` merges metadata as a union — ancestor-only
fields are kept, fields declared on both sides are deep-merged with
mandatory verb sets unioned, child-unset sortability inherited from the
parent, and per-key listable entries of the parent preserved; so a parent
field that is Listable and Sortable merged with a child declaration that is
Mandatory for `new` reports all three. -/
theorem dataAPIMeta_inherit_union :
    (∀ (parent child : List (String × FieldMeta)) (k : String) (pf : FieldMeta),
      List.lookup k parent = some pf → List.lookup k child = none →
      List.lookup k (inheritFields parent child) = some pf) ∧
    (∀ (parent child : List (String × FieldMeta)) (k : String) (pf cf : FieldMeta),
      List.lookup k parent = some pf → List.lookup k child = some cf →
      List.lookup k (inheritFields parent child) = some (mergeFieldMeta pf cf)) ∧
    (∀ (pf cf : FieldMeta) (s : String),
      s ∈ (mergeFieldMeta pf cf).mandatory ↔ s ∈ pf.mandatory ∨ s ∈ cf.mandatory) ∧
    (∀ pf cf : FieldMeta, cf.sortable = none →
      (mergeFieldMeta pf cf).sortable = pf.sortable) ∧
    (∀ (pf cf : FieldMeta) (k : String), List.lookup k cf.listable = none →
      List.lookup k (mergeFieldMeta pf cf).listable = List.lookup k pf.listable) := by
  refine ⟨?_, ?_, ?_, ?_, ?_⟩
  · intro parent child k pf hp hc
    exact inheritFields_lookup_parent_only hp hc
  · intro parent child k pf cf hp hc
    exact inheritFields_lookup_both hp hc
  · intro pf cf s
    exact mem_unionNames
  · intro pf cf hs
    simp [mergeFieldMeta, hs]
  · intro pf cf k hk
    simp only [mergeFieldMeta, unionKeyed]
    rw [lookup_append_right _ hk]
    rw [lookup_filter_key (fun k1 => (List.lookup k1 cf.listable).isNone) pf.listable k
      (by show (List.lookup k cf.listable).isNone = true; rw [hk]; rfl)]

/-- The parent declaration of the C5 example: field `F` Listable and
Sortable. -/
def parentFieldEx : FieldMeta := { listable := [("default", ["F"])], sortable := some true }

/-- The child declaration of the C5 example: field `F` Mandatory for
`new`. -/
def childFieldEx : FieldMeta := { mandatory := ["new"] }

/-- Witness for C5 at the example of the claim: parent declares `F`
Listable and Sortable, child declares `F` Mandatory for `new`; the merged
metadata reports all three declarations. -/
theorem dataAPIMeta_inherit_union_witness :
    List.lookup "F" (inheritFields [("F", parentFieldEx)] [("F", childFieldEx)])
        = some (mergeFieldMeta parentFieldEx childFieldEx) ∧
    ("new" ∈ (mergeFieldMeta parentFieldEx childFieldEx).mandatory) ∧
    (mergeFieldMeta parentFieldEx childFieldEx).sortable = some true ∧
    List.lookup "default" (mergeFieldMeta parentFieldEx childFieldEx).listable
        = some ["F"] := by
  refine ⟨?_, ?_, ?_, ?_⟩
  · exact dataAPIMeta_inherit_union.2.1 [("F", parentFieldEx)] [("F", childFieldEx)]
      "F" parentFieldEx childFieldEx rfl rfl
  · exact (dataAPIMeta_inherit_union.2.2.1 parentFieldEx childFieldEx "new").mpr
      (Or.inr (by simp [childFieldEx]))
  · exact (dataAPIMeta_inherit_union.2.2.2.1 parentFieldEx childFieldEx rfl).trans rfl
  · exact (dataAPIMeta_inherit_union.2.2.2.2 parentFieldEx childFieldEx "default" rfl).trans rfl

/-- C6: every successful List call returns at most `maxPage` and at most
`limit` rows, every returned row satisfies all supplied filters, the
returned `total` is the count of matching rows before pagination, and with
the filter map `{title: ['foo', 'eq']}` every returned row's `title` equals
`'foo'`. -/
theorem list_results_bounded_filtered (registered : List String) (p : ListParams)
    (rows : List Row) (res : ListResult)
    (h : listOp registered p rows = .ok res) :
    res.results.length ≤ p.maxPage ∧
    res.results.length ≤ p.limit ∧
    (∀ row ∈ res.results, rowMatches p.filters row = true) ∧
    res.total = (rows.filter (rowMatches p.filters)).length ∧
    (p.filters = [("title", (.str "foo", .eq))] →
      ∀ row ∈ res.results, List.lookup "title" row = some (.str "foo")) := by
  unfold listOp at h
  split at h
  case isFalse => cases h
  case isTrue hall =>
    have hres : res = ⟨((sortRows p.sortKey (rows.filter (rowMatches p.filters))).drop
        p.offset).take (min p.limit p.maxPage),
        (rows.filter (rowMatches p.filters)).length, p.offset, p.limit⟩ := by
      cases h
      rfl
    subst hres
    have hmem : ∀ row ∈ ((sortRows p.sortKey (rows.filter (rowMatches p.filters))).drop
        p.offset).take (min p.limit p.maxPage), rowMatches p.filters row = true := by
      intro row hrow
      have h1 : row ∈ (sortRows p.sortKey (rows.filter (rowMatches p.filters))).drop
          p.offset := List.mem_of_mem_take hrow
      have h2 : row ∈ sortRows p.sortKey (rows.filter (rowMatches p.filters)) :=
        List.mem_of_mem_drop h1
      have h3 : row ∈ rows.filter (rowMatches p.filters) := mem_sortRows h2
      exact (List.mem_filter.mp h3).2
    refine ⟨?_, ?_, hmem, rfl, ?_⟩
    · exact le_trans (List.length_take_le _ _) (min_le_right _ _)
    · exact le_trans (List.length_take_le _ _) (min_le_left _ _)
    · intro hf row hrow
      have hm := hmem row hrow
      rw [hf] at hm
      simp only [rowMatches, List.all_cons, List.all_nil, Bool.and_true] at hm
      unfold rowMatchesFilter at hm
      cases hL : List.lookup "title" row with
      | none => rw [hL] at hm; cases hm
      | some rv =>
        rw [hL] at hm
        simp only [applyCmp] at hm
        rw [jsonBeq_eq_true_iff.mp hm]

/-- An example row matching the C6 scenario filter. -/
def rowFoo : Row := [("_id", .str "t1"), ("title", .str "foo")]

/-- An example row not matching the C6 scenario filter. -/
def rowBar : Row := [("_id", .str "t2"), ("title", .str "bar")]

/-- The List parameters of the C6 scenario: filter `{title: ['foo', 'eq']}`,
`limit = 10`. -/
def listParamsEx : ListParams :=
  { filters := [("title", (.str "foo", .eq))], offset := 0, limit := 10,
    sortKey := none, maxPage := 100 }

/-- Witness for C6 at the Scenario C inputs. -/
theorem list_results_bounded_filtered_witness :
    ({ results := [rowFoo], total := 1, offset := 0, limit := 10 } : ListResult).results.length
        ≤ listParamsEx.maxPage ∧
    ({ results := [rowFoo], total := 1, offset := 0, limit := 10 } : ListResult).results.length
        ≤ listParamsEx.limit ∧
    (∀ row ∈ ({ results := [rowFoo], total := 1, offset := 0, limit := 10 } :
        ListResult).results, rowMatches listParamsEx.filters row = true) ∧
    ({ results := [rowFoo], total := 1, offset := 0, limit := 10 } : ListResult).total
        = ([rowFoo, rowBar].filter (rowMatches listParamsEx.filters)).length ∧
    (listParamsEx.filters = [("title", (.str "foo", .eq))] →
      ∀ row ∈ ({ results := [rowFoo], total := 1, offset := 0, limit := 10 } :
        ListResult).results, List.lookup "title" row = some (.str "foo")) :=
  list_results_bounded_filtered ["title"] listParamsEx [rowFoo, rowBar] _ rfl

/-- C7: a List call whose filter map contains a key that is not registered is
rejected with `ValidationError`, and a call whose filter keys are all
registered is not rejected. -/
theorem list_rejects_unknown_filter (registered : List String) (p : ListParams)
    (rows : List Row) :
    ((∃ f ∈ p.filters, registered.contains f.1 = false) →
      listOp registered p rows = .error .validationError) ∧
    ((∀ f ∈ p.filters, registered.contains f.1 = true) →
      ∃ res, listOp registered p rows = .ok res) := by
  constructor
  · rintro ⟨f, hf, hreg⟩
    unfold listOp
    have hall : p.filters.all (fun f => registered.contains f.1) = false := by
      rw [← Bool.not_eq_true, List.all_eq_true]
      intro hforall
      rw [hforall f hf] at hreg
      cases hreg
    rw [hall]
    rfl
  · intro hforall
    unfold listOp
    have hall : p.filters.all (fun f => registered.contains f.1) = true :=
      List.all_eq_true.mpr hforall
    rw [hall]
    exact ⟨_, rfl⟩

/-- List parameters with an unregistered filter key, for the C7 witness. -/
def listParamsBogus : ListParams :=
  { filters := [("bogus", (.str "x", .eq))], offset := 0, limit := 10,
    sortKey := none, maxPage := 100 }

/-- Witness for C7: the `bogus` filter key is rejected while the registered
`title` key is accepted. -/
theorem list_rejects_unknown_filter_witness :
    listOp ["title"] listParamsBogus [rowFoo] = .error .validationError ∧
    ∃ res, listOp ["title"] listParamsEx [rowFoo] = .ok res := by
  constructor
  · exact (list_rejects_unknown_filter ["title"] listParamsBogus [rowFoo]).1
      ⟨("bogus", (.str "x", .eq)), by simp [listParamsBogus], rfl⟩
  · refine (list_rejects_unknown_filter ["title"] listParamsEx [rowFoo]).2 ?_
    intro f hf
    simp only [listParamsEx, List.mem_singleton] at hf
    rw [hf]
    rfl

/-- C8: an Edit call on an entity with a field marked mandatory for `edit`
(such as `TaskDataAPI.title`) whose body omits that field succeeds when
`noMandatory` is set, fails with `ValidationError` without it, and in the
successful case merges only writable fields: a non-writable field keeps its
existing value. -/
theorem edit_mandatory_bypass (meta : List (String × ApiField))
    (existing body : List (String × Json)) (F : String) (fd : ApiField)
    (hF : List.lookup F meta = some fd) (hm : fd.mandatory.contains "edit" = true)
    (hb : List.lookup F body = none) (hv : failsValidation meta body = false) :
    editOp meta existing body true = .ok (mergeWritable meta existing body) ∧
    editOp meta existing body false = .error .validationError ∧
    (∀ (k : String) (fk : ApiField), List.lookup k meta = some fk → fk.writable = false →
      List.lookup k (mergeWritable meta existing body) = List.lookup k existing) := by
  have hmiss : missingMandatory meta "edit" body = true := by
    unfold missingMandatory
    rw [List.any_eq_true]
    refine ⟨(F, fd), mem_of_lookup_eq_some hF, ?_⟩
    rw [Bool.and_eq_true]
    exact ⟨hm, by rw [hb]; rfl⟩
  refine ⟨?_, ?_, ?_⟩
  · unfold editOp
    simp [hv]
  · unfold editOp
    rw [hmiss]
    rfl
  · intro k fk hk hw
    unfold mergeWritable
    rw [lookup_map_keyed (mergeFieldVal meta body) existing k]
    cases hE : List.lookup k existing with
    | none => rfl
    | some v =>
      simp only [Option.map_some']
      unfold mergeFieldVal
      rw [hk]
      cases hB : List.lookup k body with
      | none => rfl
      | some w => simp [hw]

/-- An existing stored task row for the C8 witness. -/
def taskRowEx : List (String × Json) := [("_id", .str "t1"), ("title", .str "old title")]

/-- Witness for C8 at the Scenario D inputs: body omitting the
`Mandatory('edit')` field `title` of `taskFields`. -/
theorem edit_mandatory_bypass_witness :
    editOp taskFields taskRowEx [] true = .ok (mergeWritable taskFields taskRowEx []) ∧
    editOp taskFields taskRowEx [] false = .error .validationError ∧
    (∀ (k : String) (fk : ApiField), List.lookup k taskFields = some fk →
      fk.writable = false →
      List.lookup k (mergeWritable taskFields taskRowEx []) = List.lookup k taskRowEx) :=
  edit_mandatory_bypass taskFields taskRowEx [] "title"
    { mandatory := ["new", "edit"] } rfl rfl rfl rfl

/-- C9: the query IR round-trips losslessly through the structured
serialization format — deserializing a serialized `QueryBuilderContext`
restores the identical step list, and likewise for every `QueryArg`
shape. -/
theorem queryCtx_serialization_roundtrip :
    (∀ ctx : List QueryStep, deserializeCtx (serializeCtx ctx) = some ctx) ∧
    (∀ a : QueryArg, deserializeArg (serializeArg a) = some a) := by
  refine ⟨?_, deserializeArg_serializeArg⟩
  intro ctx
  unfold serializeCtx deserializeCtx
  exact deserializeSteps_serializeSteps ctx

/-- C10: `UserModel.getUserByEmail` returns `undefined` exactly when the
`getBy('email', ...)` result is empty, and the first element of the result
otherwise; it never throws on an empty result. -/
theorem getUserByEmail_first_or_none :
    UserModel.getUserByEmail [] = none ∧
    ∀ (u : ModelInstance) (us : List ModelInstance),
      UserModel.getUserByEmail (u :: us) = some u := by
  constructor
  · rfl
  · intro u us
    simp [UserModel.getUserByEmail]
